import Mathlib

/-!
Shallow embedding of the cytomining/pipeline-examples profile pipeline
(src/nbconverted/1.profile.py and src/nbconverted/2.evaluate.py), with
theorems settling the specification claims about it.

The repository is orchestration over external libraries (pycytominer,
cytominer-eval, pandas); where a claim is decided by library behaviour
that is not part of the repository source, the corresponding definition
is modelled from the specification and says so in its doc comment.

The file is laid out as definitions first, theorems second.
-/

namespace PipelineSpec

/-! ## Definitions -/

/-! ### Grit evaluation stage (src/nbconverted/2.evaluate.py)

One per-cell-line call to `evaluate(..., operation="grit")` returns a
table with one row per non-control profile identifier: the profile and
group identifiers, the numeric grit score (possibly missing, `NaN` in
pandas, `none` here), and the `cell_line` column assigned by the loop.
The loop concatenates those tables, sorts by `grit` descending
(missing scores last, as pandas places `NaN`), and drops rows with a
missing score. -/

/-- One row of a per-cell-line grit result table. Only the `grit`
column is numeric and can be missing; the identifier columns are
metadata strings. -/
structure GritRow where
  perturbation : String
  group : String
  cell_line : String
  grit : Option ℚ
  deriving DecidableEq

/-- Row `a` may come before row `b` in the descending sort on the
`grit` column: larger scores first and missing scores last. -/
def gritDescBefore (a b : GritRow) : Prop :=
  match b.grit, a.grit with
  | none, _ => True
  | some _, none => False
  | some y, some x => y ≤ x

instance : DecidableRel gritDescBefore := fun a b => by
  unfold gritDescBefore
  rcases b.grit with _ | y
  · exact isTrue trivial
  · rcases a.grit with _ | x
    · exact isFalse fun h => h
    · exact inferInstanceAs (Decidable (y ≤ x))

instance : IsTotal GritRow gritDescBefore := by
  constructor
  intro a b
  rcases ha : a.grit with _ | x <;> rcases hb : b.grit with _ | y <;>
    simp [gritDescBefore, ha, hb]
  exact le_total y x

instance : IsTrans GritRow gritDescBefore := by
  constructor
  intro a b c hab hbc
  rcases ha : a.grit with _ | x <;> rcases hb : b.grit with _ | y <;>
    rcases hc : c.grit with _ | z <;> simp_all [gritDescBefore]
  exact le_trans hbc hab

/-- `dropna()` on a grit result table: keep the rows whose numeric
column is present. -/
def gritDropna (l : List GritRow) : List GritRow :=
  l.filter fun r => r.grit.isSome

/-- The evaluation stage's final grit table
(src/nbconverted/2.evaluate.py lines 199-205): concatenate the
per-cell-line result tables, sort by `grit` descending, then `dropna()`. -/
def grit_results (perCellLine : List (List GritRow)) : List GritRow :=
  (List.insertionSort gritDescBefore perCellLine.flatten).filter fun r => r.grit.isSome

/-! ### Profile tables

Column-major model of the Profile Table of the spec: metadata columns
hold string identifiers, feature columns hold numeric morphology
measurements in which a missing value (pandas `NaN`) is `none`. -/

/-- A metadata column: a name and one string value per row. -/
structure MetaColumn where
  name : String
  values : List String
  deriving DecidableEq

/-- A feature column: a name and one possibly-missing numeric value per
row. -/
structure FeatureColumn where
  name : String
  values : List (Option ℚ)
  deriving DecidableEq

/-- A profile table: metadata columns and feature columns. -/
structure ProfileTable where
  meta : List MetaColumn
  feats : List FeatureColumn
  deriving DecidableEq

/-- The names of the feature columns of a table. -/
def featureNames (t : ProfileTable) : List String :=
  t.feats.map fun c => c.name

/-- The values of a feature column that are present (not missing). -/
def presentValues (c : FeatureColumn) : List ℚ :=
  c.values.filterMap id

/-- Mean of a list of rationals (0 on an empty list). -/
def listMean (l : List ℚ) : ℚ :=
  if l.length = 0 then 0 else l.sum / l.length

/-- Mean of the present values of a column. -/
def colMean (c : FeatureColumn) : ℚ :=
  listMean (presentValues c)

/-- Population variance of the present values of a column. -/
def colVariance (c : FeatureColumn) : ℚ :=
  listMean ((presentValues c).map fun x => (x - colMean c) ^ 2)

/-- Fraction of missing values in a column (0 on an empty column). -/
def naFraction (c : FeatureColumn) : ℚ :=
  if c.values.length = 0 then 0
  else (c.values.count none) / c.values.length

/-- The row-paired present values of two columns: rows where both
columns have a value. -/
def pairedValues (a b : FeatureColumn) : List (ℚ × ℚ) :=
  (a.values.zip b.values).filterMap fun vw =>
    match vw with
    | (some x, some y) => some (x, y)
    | _ => none

/-- Whether the pairwise correlation of two columns exceeds the cutoff
in absolute value. Over the row-paired present values, with covariance
`cov` and per-column variances `vx`, `vy`, the test `|corr| > cutoff`
is expressed square-root-free as `cov ^ 2 > cutoff ^ 2 * vx * vy`. -/
def corrExceeds (cutoff : ℚ) (a b : FeatureColumn) : Bool :=
  let p := pairedValues a b
  let mx := listMean (p.map Prod.fst)
  let my := listMean (p.map Prod.snd)
  let cov : ℚ := listMean (p.map fun xy => (xy.1 - mx) * (xy.2 - my))
  let vx : ℚ := listMean (p.map fun xy => (xy.1 - mx) ^ 2)
  let vy : ℚ := listMean (p.map fun xy => (xy.2 - my) ^ 2)
  cov ^ 2 > cutoff ^ 2 * vx * vy

/-! ### Normalizer (call site src/nbconverted/1.profile.py lines 185-193)

Modelled from the spec: pycytominer's `normalize` is not part of this
repository's source; only its call with `features="infer"`,
`samples="Metadata_treatment == '0.1% DMSO'"` and
`method="standardize"` is. Per the spec, location and scale statistics
are computed from the reference subset selected by the row predicate
and applied to every row; an empty reference subset is ill-defined and
must fail rather than silently normalize using the whole population.
The numeric square root (irrational over `ℚ`) is passed in as
`sqrtFn`. -/

/-- The control-sample row predicate, as a typed (column, value)
equality — the shape of the filter string
`"Metadata_treatment == '0.1% DMSO'"` used in the source. -/
structure SamplePredicate where
  column : String
  value : String
  deriving DecidableEq

/-- Modelled from the spec: `normalize` (pycytominer, not in src/).
Selects the reference rows by the predicate, fails when the predicate
column is missing or selects no rows, else rescales every feature
column by the location (mean) and scale (`sqrtFn` of variance)
statistics of the reference subset only. -/
def normalize (sqrtFn : ℚ → ℚ) (t : ProfileTable) (samples : SamplePredicate) :
    Except String ProfileTable :=
  match t.meta.find? fun c => c.name == samples.column with
  | none => .error ("normalize: missing metadata column " ++ samples.column)
  | some c =>
    if c.values.countP (fun v => v == samples.value) = 0 then
      .error ("normalize: sample predicate selected no rows: " ++
        samples.column ++ " == " ++ samples.value)
    else
      let mask := c.values.map fun v => v == samples.value
      .ok
        { meta := t.meta
          feats := t.feats.map fun col =>
            let ref := ((mask.zip col.values).filterMap fun bv =>
              if bv.1 then bv.2 else none)
            let loc := listMean ref
            let scale := sqrtFn (listMean (ref.map fun x => (x - loc) ^ 2))
            { name := col.name
              values := col.values.map fun v => v.map fun x => (x - loc) / scale } }

/-! ### Feature Selector (call site src/nbconverted/1.profile.py lines 216-231)

Modelled from the spec: pycytominer's `feature_select` is not part of
this repository's source; only its call with the ordered operation list
`["variance_threshold", "drop_na_columns", "correlation_threshold",
"blocklist", "drop_outliers"]`, `features="infer"` and `samples="all"`
is. Per the spec each operation removes a subset of feature columns
according to its own rule, order matters, and a failure in one
operation aborts the whole selection, surfacing the operation and the
columns that triggered it (zero-variance columns feeding the
correlation computation are the statistical-validity failure named by
the spec's error taxonomy). -/

/-- A feature-selection operation with its cutoff parameter. -/
inductive FSOp where
  | variance_threshold (cutoff : ℚ)
  | drop_na_columns (cutoff : ℚ)
  | correlation_threshold (cutoff : ℚ)
  | blocklist (names : List String)
  | drop_outliers (cutoff : ℚ)
  deriving DecidableEq

/-- The operation's name as passed in the source's operation list. -/
def FSOp.opName : FSOp → String
  | .variance_threshold _ => "variance_threshold"
  | .drop_na_columns _ => "drop_na_columns"
  | .correlation_threshold _ => "correlation_threshold"
  | .blocklist _ => "blocklist"
  | .drop_outliers _ => "drop_outliers"

/-- The per-column keep rule of the four operations whose rule looks at
one column at a time (`correlation_threshold` is pairwise and is
handled separately). -/
def colKeep : FSOp → FeatureColumn → Bool
  | .variance_threshold cutoff, c => decide (cutoff ≤ colVariance c)
  | .drop_na_columns cutoff, c => decide (naFraction c ≤ cutoff)
  | .correlation_threshold _, _ => true
  | .blocklist names, c => decide (c.name ∉ names)
  | .drop_outliers cutoff, c => (presentValues c).all fun x => decide (|x| ≤ cutoff)

/-- Greedy pass of `correlation_threshold`: walk the columns in order,
keeping a column when it does not exceed-correlate with any previously
kept column — a deterministic choice of which column of each
over-correlated pair to drop. -/
def corrGo (cutoff : ℚ) (kept : List FeatureColumn) :
    List FeatureColumn → List FeatureColumn
  | [] => []
  | c :: cs =>
    if kept.all fun k => !corrExceeds cutoff k c then
      c :: corrGo cutoff (kept ++ [c]) cs
    else
      corrGo cutoff kept cs

/-- The columns kept by `correlation_threshold`. -/
def corrSelect (cutoff : ℚ) (cols : List FeatureColumn) : List FeatureColumn :=
  corrGo cutoff [] cols

/-- A feature-selection failure: the operation that failed and the
columns that triggered it. -/
structure FSError where
  operation : String
  columns : List String
  deriving DecidableEq

/-- Apply one selection operation. The four per-column operations
filter by their keep rule; `correlation_threshold` first checks the
statistical validity of the correlation computation (no zero-variance
column), failing with the offending operation and columns, then keeps
the greedy selection. -/
def applyOp (op : FSOp) (t : ProfileTable) : Except FSError ProfileTable :=
  match op with
  | .correlation_threshold cutoff =>
    match t.feats.filter fun c => decide (colVariance c = 0) with
    | [] => .ok { meta := t.meta, feats := corrSelect cutoff t.feats }
    | bad => .error { operation := "correlation_threshold"
                      columns := bad.map fun c => c.name }
  | .variance_threshold cutoff =>
    .ok { meta := t.meta, feats := t.feats.filter (colKeep (.variance_threshold cutoff)) }
  | .drop_na_columns cutoff =>
    .ok { meta := t.meta, feats := t.feats.filter (colKeep (.drop_na_columns cutoff)) }
  | .blocklist names =>
    .ok { meta := t.meta, feats := t.feats.filter (colKeep (.blocklist names)) }
  | .drop_outliers cutoff =>
    .ok { meta := t.meta, feats := t.feats.filter (colKeep (.drop_outliers cutoff)) }

/-- Modelled from the spec: `feature_select` (pycytominer, not in
src/). Apply the ordered operation list in sequence; the first failing
operation aborts the whole selection with its error. -/
def feature_select (ops : List FSOp) (t : ProfileTable) : Except FSError ProfileTable :=
  match ops with
  | [] => .ok t
  | op :: rest =>
    match applyOp op t with
    | .ok u => feature_select rest u
    | .error e => .error e

/-- The state of the stage output file after running feature selection:
the file is (re)written only when the whole selection succeeds. -/
def feature_select_stage (ops : List FSOp) (t : ProfileTable)
    (outputFile : Option ProfileTable) :
    Except FSError ProfileTable × Option ProfileTable :=
  match feature_select ops t with
  | .ok u => (.ok u, some u)
  | .error e => (.error e, outputFile)

/-- The invariant one selection operation establishes on the table it
returns: the operation has nothing left to drop. For a per-column
operation every remaining column passes its keep rule; for
`correlation_threshold` every remaining column has nonzero variance and
no remaining pair exceed-correlates. -/
def goodOp : FSOp → ProfileTable → Prop
  | .correlation_threshold cutoff, t =>
    (∀ c ∈ t.feats, colVariance c ≠ 0) ∧
      t.feats.Pairwise fun a b => corrExceeds cutoff a b = false
  | .variance_threshold cutoff, t =>
    ∀ c ∈ t.feats, colKeep (.variance_threshold cutoff) c = true
  | .drop_na_columns cutoff, t =>
    ∀ c ∈ t.feats, colKeep (.drop_na_columns cutoff) c = true
  | .blocklist names, t =>
    ∀ c ∈ t.feats, colKeep (.blocklist names) c = true
  | .drop_outliers cutoff, t =>
    ∀ c ∈ t.feats, colKeep (.drop_outliers cutoff) c = true

/-! ### Aggregator (call site src/nbconverted/1.profile.py lines 83-132)

Modelled from the spec: pycytominer's `SingleCells.aggregate_profiles`
is not part of this repository's source; only its configuration is:
`strata=["Metadata_Plate", "Metadata_Well"]`,
`aggregation_operation="median"`, and no subsampling
(`subsample_frac=1`, `subsample_n="all"`). Per the spec, aggregation
produces one row per distinct stratification-key combination holding
the median of every feature column across that key's single cells. -/

/-- A single-cell measurement row: the stratification metadata and the
cell's feature values. -/
structure SingleCellRow where
  Metadata_Plate : String
  Metadata_Well : String
  feats : List ℚ
  deriving DecidableEq

/-- The stratification key of a single cell. -/
def strataKey (r : SingleCellRow) : String × String :=
  (r.Metadata_Plate, r.Metadata_Well)

/-- Insert a row into grouped rows: append it to its key's group, or
open a new group at the end for a new key. -/
def insertRow {κ α : Type} [DecidableEq κ] (key : α → κ)
    (groups : List (κ × List α)) (r : α) : List (κ × List α) :=
  match groups with
  | [] => [(key r, [r])]
  | (k, rs) :: rest =>
    if key r = k then (k, rs ++ [r]) :: rest
    else (k, rs) :: insertRow key rest r

/-- Group a list of rows by a key, in order of first appearance. -/
def groupByKey {κ α : Type} [DecidableEq κ] (key : α → κ) (l : List α) :
    List (κ × List α) :=
  l.foldl (insertRow key) []

/-- Median of a list of rationals (0 on an empty list): sort, then take
the middle element, or the mean of the two middle elements. -/
def medianQ (l : List ℚ) : ℚ :=
  let s := l.mergeSort fun a b => decide (a ≤ b)
  if s.length = 0 then 0
  else if s.length % 2 = 1 then s.getD (s.length / 2) 0
  else (s.getD (s.length / 2 - 1) 0 + s.getD (s.length / 2) 0) / 2

/-- Per-feature median across the rows of one group (feature count
taken from the first row). -/
def medianProfile (rows : List SingleCellRow) : List ℚ :=
  match rows with
  | [] => []
  | r :: _ =>
    (List.range r.feats.length).map fun i =>
      medianQ (rows.filterMap fun s => s.feats[i]?)

/-- An aggregated (well-level) profile row. -/
structure AggregatedRow where
  Metadata_Plate : String
  Metadata_Well : String
  feats : List ℚ
  deriving DecidableEq

/-- Modelled from the spec: `aggregate_profiles` (pycytominer, not in
src/): one output row per distinct stratification key, features
collapsed by the median. -/
def aggregate_profiles (sc : List SingleCellRow) : List AggregatedRow :=
  (groupByKey strataKey sc).map fun g =>
    { Metadata_Plate := g.1.1, Metadata_Well := g.1.2
      feats := medianProfile g.2 }

/-! ### Consensus Builder (call site src/nbconverted/1.profile.py lines 255-267)

Modelled from the spec: pycytominer's `consensus` is not part of this
repository's source; only its call with
`replicate_columns=["Metadata_clone_number", "Metadata_treatment"]` and
`operation="modz"` is. The spec makes no claim about the internals of
the modz collapse beyond its parameters, so the per-group combiner is a
parameter here; one output row is produced per distinct value of the
replicate-grouping columns. -/

/-- A level-4 (normalized, feature-selected) profile row entering the
consensus stage. -/
structure Level4Row where
  Metadata_clone_number : String
  Metadata_treatment : String
  feats : List (Option ℚ)
  deriving DecidableEq

/-- The replicate-grouping key of the consensus stage. -/
def replicateKey (r : Level4Row) : String × String :=
  (r.Metadata_clone_number, r.Metadata_treatment)

/-- A consensus profile row. -/
structure ConsensusRow where
  Metadata_clone_number : String
  Metadata_treatment : String
  feats : List (Option ℚ)
  deriving DecidableEq

/-- Modelled from the spec: `consensus` (pycytominer, not in src/):
group the profiles on the replicate columns and collapse each group's
feature values with the given combiner (modz in the source). -/
def consensus (modzCollapse : List Level4Row → List (Option ℚ))
    (profiles : List Level4Row) : List ConsensusRow :=
  (groupByKey replicateKey profiles).map fun g =>
    { Metadata_clone_number := g.1.1, Metadata_treatment := g.1.2
      feats := modzCollapse g.2 }

/-! ### Stage output files (src/nbconverted/1.profile.py lines 71-72)

Every stage writes its output through
`compression_options = {"method": "gzip", "mtime": 1}`. -/

/-- The compression options dictionary of the source: method and an
optional pinned modification time for the gzip header. -/
structure CompressionOptions where
  method : String
  mtime : Option Nat
  deriving DecidableEq

/-- `compression_options` as set in the source: gzip with the
modification time pinned to 1. -/
def compression_options : CompressionOptions :=
  { method := "gzip", mtime := some 1 }

/-- Little-endian 4-byte encoding of the gzip header MTIME field. -/
def bytes4 (n : Nat) : List Nat :=
  [n % 256, n / 256 % 256, n / 256 ^ 2 % 256, n / 256 ^ 3 % 256]

/-- Modelled from the spec: the gzip member written for a stage output
(the writer lives in pandas, not in src/). Magic bytes, compression
method, flags, the 4-byte MTIME field, extra flags and OS byte, then
the deflate body, which is a function of the payload alone. -/
def gzipBytes (deflate : List Nat → List Nat) (mtime : Nat)
    (payload : List Nat) : List Nat :=
  [31, 139, 8, 0] ++ bytes4 mtime ++ [0, 255] ++ deflate payload

/-- Write one stage output: the header MTIME is the pinned `mtime`
option when set, else the wall clock at write time. -/
def writeStageOutput (deflate : List Nat → List Nat)
    (opts : CompressionOptions) (clock : Nat) (payload : List Nat) : List Nat :=
  gzipBytes deflate (opts.mtime.getD clock) payload

/-! ### Cell-count report (src/nbconverted/1.profile.py lines 101-113)

The per-well cell counts are merged with the platemap via pandas
`merge(left_on="Metadata_Well", right_on="well_position")` with the
default join type. Modelled from the spec: pandas `merge` is not in
src/; its default is the inner join the claim describes. -/

/-- A row of the per-well cell-count table. -/
structure CellCountRow where
  Metadata_Well : String
  cell_count : Nat
  deriving DecidableEq

/-- A row of the platemap table: the well position and its annotation
values. -/
structure PlatemapRow where
  well_position : String
  contents : List String
  deriving DecidableEq

/-- A row of the written cell-count report. -/
structure MergedCountRow where
  Metadata_Well : String
  cell_count : Nat
  contents : List String
  deriving DecidableEq

/-- Modelled from the spec: the pandas default (inner) merge of the
cell-count table with the platemap on
`Metadata_Well = well_position` — one output row per matching pair of
input rows, and no row for an unmatched key on either side. -/
def cell_count_merge (counts : List CellCountRow) (platemap : List PlatemapRow) :
    List MergedCountRow :=
  (counts.map fun c =>
    (platemap.filter fun p => p.well_position == c.Metadata_Well).map fun p =>
      { Metadata_Well := c.Metadata_Well
        cell_count := c.cell_count
        contents := p.contents }).flatten

/-- Decidable equality for `Except` results, so that concrete runs of
the fallible stages can be checked by evaluation. -/
instance {ε α : Type} [DecidableEq ε] [DecidableEq α] : DecidableEq (Except ε α) :=
  fun x y =>
    match x, y with
    | .ok a, .ok b =>
      if h : a = b then isTrue (by rw [h]) else isFalse fun hc => h (Except.ok.inj hc)
    | .error a, .error b =>
      if h : a = b then isTrue (by rw [h]) else isFalse fun hc => h (Except.error.inj hc)
    | .ok _, .error _ => isFalse fun hc => Except.noConfusion hc
    | .error _, .ok _ => isFalse fun hc => Except.noConfusion hc

/-! ### Concrete tables used by the witnesses -/

/-- The source's feature-selection operation list with concrete
cutoffs. -/
def opsSrc : List FSOp :=
  [FSOp.variance_threshold (1 / 10), FSOp.drop_na_columns (1 / 20),
    FSOp.correlation_threshold (9 / 10), FSOp.blocklist ["Nuclei_bad"],
    FSOp.drop_outliers 500]

/-- A small level-4a table: two informative feature columns and one
constant column that `variance_threshold` drops. -/
def tableA : ProfileTable :=
  { meta := [{ name := "Metadata_treatment", values := ["a", "b", "c"] }]
    feats :=
      [{ name := "Cells_a", values := [some 1, some 2, some 3] },
        { name := "Cells_const", values := [some 5, some 5, some 5] },
        { name := "Nuclei_b", values := [some 1, some 0, some 2] }] }

/-- `tableA` after the source's feature-selection operation list: the
constant column is gone. -/
def tableASelected : ProfileTable :=
  { meta := [{ name := "Metadata_treatment", values := ["a", "b", "c"] }]
    feats :=
      [{ name := "Cells_a", values := [some 1, some 2, some 3] },
        { name := "Nuclei_b", values := [some 1, some 0, some 2] }] }

/-- A table whose only feature column is constant, so that
`correlation_threshold` fails its statistical-validity check. -/
def tableBad : ProfileTable :=
  { meta := []
    feats := [{ name := "Cells_const", values := [some 5, some 5, some 5] }] }

/-- A two-row annotated table whose first row is the DMSO control. -/
def tableB : ProfileTable :=
  { meta := [{ name := "Metadata_treatment", values := ["0.1% DMSO", "x"] }]
    feats := [{ name := "Cells_a", values := [some 1, some 2] }] }

/-- The control-sample predicate used in the source. -/
def dmsoPredicate : SamplePredicate :=
  { column := "Metadata_treatment", value := "0.1% DMSO" }

/-- `tableB` normalized against its single control row (the control
subset has zero variance, and division by a zero scale is 0 over `ℚ`). -/
def tableBNormalized : ProfileTable :=
  { meta := [{ name := "Metadata_treatment", values := ["0.1% DMSO", "x"] }]
    feats := [{ name := "Cells_a", values := [some 0, some 0] }] }

/-! ## Theorems -/

/-! ### Stable sort and filter

General lemmas about `List.insertionSort` (the deterministic, stable
realisation of the dataframe sort used in the evaluation stage) and
`List.filter` (row dropping). -/

section SortFilter

variable {α : Type} (r : α → α → Prop) [DecidableRel r]

theorem orderedInsert_eq_cons (a : α) (l : List α) (h : ∀ b ∈ l, r a b) :
    List.orderedInsert r a l = a :: l := by
  cases l with
  | nil => rfl
  | cons b bs => simp [List.orderedInsert, h b (List.mem_cons_self b bs)]

variable [IsTrans α r]

theorem filter_orderedInsert (p : α → Bool) (a : α) (l : List α) (hl : l.Sorted r) :
    (List.orderedInsert r a l).filter p =
      if p a then List.orderedInsert r a (l.filter p) else l.filter p := by
  induction l with
  | nil => by_cases hp : p a <;> simp [List.orderedInsert, hp]
  | cons b bs ih =>
    rcases List.sorted_cons.mp hl with ⟨hb, hbs⟩
    by_cases hr : r a b
    · rw [List.orderedInsert, if_pos hr]
      by_cases hp : p a
      · by_cases hpb : p b
        · simp [List.filter_cons, hp, hpb, List.orderedInsert, hr]
        · have hall : ∀ x ∈ bs.filter p, r a x := fun x hx =>
            IsTrans.trans a b x hr (hb x (List.mem_of_mem_filter hx))
          simp [List.filter_cons, hp, hpb, orderedInsert_eq_cons r a _ hall]
      · simp [List.filter_cons, hp]
    · rw [List.orderedInsert, if_neg hr]
      by_cases hpb : p b
      · by_cases hp : p a
        · simp [List.filter_cons, hpb, hp, ih hbs, List.orderedInsert, hr]
        · simp [List.filter_cons, hpb, hp, ih hbs]
      · by_cases hp : p a <;> simp [List.filter_cons, hpb, hp, ih hbs]

theorem filter_insertionSort [IsTotal α r] (p : α → Bool) (l : List α) :
    (List.insertionSort r l).filter p = List.insertionSort r (l.filter p) := by
  induction l with
  | nil => rfl
  | cons a l ih =>
    rw [List.insertionSort, filter_orderedInsert r p a _ (List.sorted_insertionSort r l)]
    by_cases hp : p a
    · rw [if_pos hp, ih, List.filter_cons_of_pos hp, List.insertionSort]
    · rw [if_neg hp, ih, List.filter_cons_of_neg hp]

end SortFilter

/-! ### Claims C1 and C10: the grit evaluation stage -/

/-- C1: rows with missing results are (extensionally) dropped before the
descending ranking: the final grit table equals the descending sort of
the concatenated tables with the missing-score rows already removed.
In the source the `dropna()` is applied after `sort_values`, but the
stable sort commutes with the row filter, so the final ranked output is
exactly that of dropping first. -/
theorem grit_results_eq_rank_of_dropna (perCellLine : List (List GritRow)) :
    grit_results perCellLine =
      List.insertionSort gritDescBefore (gritDropna perCellLine.flatten) :=
  filter_insertionSort gritDescBefore _ _

/-- C10: the final grit table has no missing score and is ordered by
grit score in non-increasing (descending) order. -/
theorem grit_results_complete_and_sorted (perCellLine : List (List GritRow)) :
    ((grit_results perCellLine).all fun r => r.grit.isSome) = true ∧
      (grit_results perCellLine).Sorted gritDescBefore := by
  constructor
  · simp only [grit_results, List.all_eq_true]
    intro r hr
    exact (List.mem_filter.mp hr).2
  · exact (List.sorted_insertionSort gritDescBefore _).filter _

/-! ### Claim C2: the normalizer fails on an empty reference subset -/

/-- C2: a control-sample row predicate that selects an empty row set
makes normalization fail with an error naming the predicate, rather
than silently computing statistics from the whole population. -/
theorem normalize_empty_samples_errors (sqrtFn : ℚ → ℚ) (t : ProfileTable)
    (samples : SamplePredicate) (c : MetaColumn)
    (hc : t.meta.find? (fun m => m.name == samples.column) = some c)
    (h0 : c.values.countP (fun v => v == samples.value) = 0) :
    normalize sqrtFn t samples =
      .error ("normalize: sample predicate selected no rows: " ++
        samples.column ++ " == " ++ samples.value) := by
  unfold normalize
  rw [hc]
  simp [h0]

/-- Witness for C2 at a concrete table: a two-row table whose treatment
column never matches the predicate value. -/
theorem normalize_empty_samples_errors_witness :
    normalize id
      { meta := [{ name := "Metadata_treatment", values := ["x", "y"] }]
        feats := [{ name := "Cells_a", values := [some 1, some 2] }] }
      dmsoPredicate =
      .error ("normalize: sample predicate selected no rows: " ++
        "Metadata_treatment" ++ " == " ++ "0.1% DMSO") :=
  normalize_empty_samples_errors id _ dmsoPredicate
    { name := "Metadata_treatment", values := ["x", "y"] } (by decide) (by decide)

/-! ### Feature-selection lemmas -/

theorem corrGo_sublist (cutoff : ℚ) (cs : List FeatureColumn) :
    ∀ kept, List.Sublist (corrGo cutoff kept cs) cs := by
  induction cs with
  | nil => intro kept; exact List.Sublist.refl []
  | cons c cs ih =>
    intro kept
    rw [corrGo]
    by_cases h : (kept.all fun k => !corrExceeds cutoff k c) = true
    · rw [if_pos h]
      exact List.Sublist.cons₂ c (ih (kept ++ [c]))
    · rw [if_neg h]
      exact List.Sublist.cons c (ih kept)

theorem corrGo_not_exceeds_kept (cutoff : ℚ) (cs : List FeatureColumn) :
    ∀ kept, ∀ x ∈ corrGo cutoff kept cs, ∀ k ∈ kept,
      corrExceeds cutoff k x = false := by
  induction cs with
  | nil => intro kept x hx; simp [corrGo] at hx
  | cons c cs ih =>
    intro kept x hx k hk
    rw [corrGo] at hx
    by_cases h : (kept.all fun k => !corrExceeds cutoff k c) = true
    · rw [if_pos h] at hx
      rcases List.mem_cons.mp hx with rfl | hx
      · have := List.all_eq_true.mp h k hk
        simpa using this
      · exact ih (kept ++ [c]) x hx k (by simp [hk])
    · rw [if_neg h] at hx
      exact ih kept x hx k hk

theorem corrGo_pairwise (cutoff : ℚ) (cs : List FeatureColumn) :
    ∀ kept, (corrGo cutoff kept cs).Pairwise
      fun a b => corrExceeds cutoff a b = false := by
  induction cs with
  | nil => intro kept; simp [corrGo]
  | cons c cs ih =>
    intro kept
    rw [corrGo]
    by_cases h : (kept.all fun k => !corrExceeds cutoff k c) = true
    · rw [if_pos h]
      refine List.Pairwise.cons ?_ (ih (kept ++ [c]))
      intro x hx
      exact corrGo_not_exceeds_kept cutoff cs (kept ++ [c]) x hx c (by simp)
    · rw [if_neg h]
      exact ih kept

theorem corrGo_fix (cutoff : ℚ) (cs : List FeatureColumn) :
    ∀ kept, (cs.Pairwise fun a b => corrExceeds cutoff a b = false) →
      (∀ k ∈ kept, ∀ c ∈ cs, corrExceeds cutoff k c = false) →
      corrGo cutoff kept cs = cs := by
  induction cs with
  | nil => intro kept _ _; rfl
  | cons c cs ih =>
    intro kept hpw hk
    have hcheck : (kept.all fun k => !corrExceeds cutoff k c) = true := by
      rw [List.all_eq_true]
      intro k hkk
      simpa using hk k hkk c (List.mem_cons_self c cs)
    rw [corrGo, if_pos hcheck]
    congr 1
    refine ih (kept ++ [c]) (List.Pairwise.of_cons hpw) ?_
    intro k hkk d hd
    rcases List.mem_append.mp hkk with hkk | hkk
    · exact hk k hkk d (List.mem_cons_of_mem c hd)
    · rw [List.mem_singleton.mp hkk]
      exact (List.pairwise_cons.mp hpw).1 d hd

theorem applyOp_ok_shape {op : FSOp} {t u : ProfileTable}
    (h : applyOp op t = .ok u) : u.meta = t.meta ∧ List.Sublist u.feats t.feats := by
  cases op with
  | correlation_threshold cutoff =>
    rw [applyOp] at h
    rcases hbad : t.feats.filter (fun c => decide (colVariance c = 0)) with _ | ⟨b, bs⟩
    · rw [hbad] at h
      cases Except.ok.inj h
      exact ⟨rfl, corrGo_sublist cutoff t.feats []⟩
    · rw [hbad] at h
      cases h
  | variance_threshold cutoff =>
    cases Except.ok.inj h
    exact ⟨rfl, List.filter_sublist t.feats⟩
  | drop_na_columns cutoff =>
    cases Except.ok.inj h
    exact ⟨rfl, List.filter_sublist t.feats⟩
  | blocklist names =>
    cases Except.ok.inj h
    exact ⟨rfl, List.filter_sublist t.feats⟩
  | drop_outliers cutoff =>
    cases Except.ok.inj h
    exact ⟨rfl, List.filter_sublist t.feats⟩

theorem goodOp_applyOp {op : FSOp} {t u : ProfileTable}
    (h : applyOp op t = .ok u) : goodOp op u := by
  cases op with
  | correlation_threshold cutoff =>
    rw [applyOp] at h
    rcases hbad : t.feats.filter (fun c => decide (colVariance c = 0)) with _ | ⟨b, bs⟩
    · rw [hbad] at h
      cases Except.ok.inj h
      constructor
      · intro c hc
        have hsub : List.Sublist (corrSelect cutoff t.feats) t.feats :=
          corrGo_sublist cutoff t.feats []
        have hmem : c ∈ t.feats := hsub.subset hc
        intro hvar
        have : c ∈ t.feats.filter fun c => decide (colVariance c = 0) :=
          List.mem_filter.mpr ⟨hmem, by simp [hvar]⟩
        rw [hbad] at this
        simp at this
      · exact corrGo_pairwise cutoff t.feats []
    · rw [hbad] at h
      cases h
  | variance_threshold cutoff =>
    cases Except.ok.inj h
    intro c hc
    exact (List.mem_filter.mp hc).2
  | drop_na_columns cutoff =>
    cases Except.ok.inj h
    intro c hc
    exact (List.mem_filter.mp hc).2
  | blocklist names =>
    cases Except.ok.inj h
    intro c hc
    exact (List.mem_filter.mp hc).2
  | drop_outliers cutoff =>
    cases Except.ok.inj h
    intro c hc
    exact (List.mem_filter.mp hc).2

theorem applyOp_of_goodOp {op : FSOp} {t : ProfileTable}
    (h : goodOp op t) : applyOp op t = .ok t := by
  cases op with
  | correlation_threshold cutoff =>
    rcases h with ⟨hvar, hpw⟩
    have hbad : (t.feats.filter fun c => decide (colVariance c = 0)) = [] := by
      rw [List.filter_eq_nil_iff]
      intro c hc
      simpa using hvar c hc
    rw [applyOp, hbad]
    have : corrSelect cutoff t.feats = t.feats :=
      corrGo_fix cutoff t.feats [] hpw (by simp)
    rw [this]
  | variance_threshold cutoff =>
    rw [applyOp]
    rw [List.filter_eq_self.mpr h]
  | drop_na_columns cutoff =>
    rw [applyOp]
    rw [List.filter_eq_self.mpr h]
  | blocklist names =>
    rw [applyOp]
    rw [List.filter_eq_self.mpr h]
  | drop_outliers cutoff =>
    rw [applyOp]
    rw [List.filter_eq_self.mpr h]

theorem goodOp_sublist {op : FSOp} {t u : ProfileTable}
    (h : goodOp op t) (hs : List.Sublist u.feats t.feats) : goodOp op u := by
  cases op with
  | correlation_threshold cutoff =>
    exact ⟨fun c hc => h.1 c (hs.subset hc), h.2.sublist hs⟩
  | variance_threshold cutoff => exact fun c hc => h c (hs.subset hc)
  | drop_na_columns cutoff => exact fun c hc => h c (hs.subset hc)
  | blocklist names => exact fun c hc => h c (hs.subset hc)
  | drop_outliers cutoff => exact fun c hc => h c (hs.subset hc)

theorem feature_select_ok_shape :
    ∀ (ops : List FSOp) (t u : ProfileTable), feature_select ops t = .ok u →
      u.meta = t.meta ∧ List.Sublist u.feats t.feats := by
  intro ops
  induction ops with
  | nil =>
    intro t u h
    cases Except.ok.inj h
    exact ⟨rfl, List.Sublist.refl _⟩
  | cons op rest ih =>
    intro t u h
    rw [feature_select] at h
    rcases happ : applyOp op t with e | v
    · rw [happ] at h; cases h
    · rw [happ] at h
      rcases ih v u h with ⟨hm, hs⟩
      rcases applyOp_ok_shape happ with ⟨hm2, hs2⟩
      exact ⟨hm.trans hm2, hs.trans hs2⟩

theorem feature_select_good :
    ∀ (ops : List FSOp) (t u : ProfileTable), feature_select ops t = .ok u →
      ∀ op ∈ ops, goodOp op u := by
  intro ops
  induction ops with
  | nil => intro t u _ op hop; cases hop
  | cons op rest ih =>
    intro t u h op2 hop2
    rw [feature_select] at h
    rcases happ : applyOp op t with e | v
    · rw [happ] at h; cases h
    · rw [happ] at h
      rcases List.mem_cons.mp hop2 with rfl | hop2
      · exact goodOp_sublist (goodOp_applyOp happ) (feature_select_ok_shape rest v u h).2
      · exact ih v u h op2 hop2

theorem feature_select_fix :
    ∀ (ops : List FSOp) (t : ProfileTable), (∀ op ∈ ops, goodOp op t) →
      feature_select ops t = .ok t := by
  intro ops
  induction ops with
  | nil => intro t _; rfl
  | cons op rest ih =>
    intro t h
    rw [feature_select, applyOp_of_goodOp (h op (List.mem_cons_self op rest))]
    exact ih t fun op2 hop2 => h op2 (List.mem_cons_of_mem op hop2)

/-! ### Claim C3: feature selection is idempotent -/

/-- C3: applying `feature_select` with a fixed ordered operation list to
the output of `feature_select` with that same list removes no further
feature column: the second run returns its input unchanged. -/
theorem feature_select_idempotent (ops : List FSOp) (t u : ProfileTable)
    (h : feature_select ops t = .ok u) : feature_select ops u = .ok u :=
  feature_select_fix ops u (feature_select_good ops t u h)

/-- Witness for C3: the source's operation list on a concrete table
drops exactly the constant column, and a second run keeps the result
unchanged. -/
theorem feature_select_idempotent_witness :
    feature_select opsSrc tableASelected = .ok tableASelected :=
  feature_select_idempotent opsSrc tableA tableASelected (by with_unfolding_all rfl)

/-! ### Claim C6: feature selection is atomic per table -/

theorem applyOp_error {op : FSOp} {t : ProfileTable} {e : FSError}
    (h : applyOp op t = .error e) :
    e.operation = op.opName ∧ e.columns ⊆ featureNames t := by
  cases op with
  | correlation_threshold cutoff =>
    rw [applyOp] at h
    rcases hbad : t.feats.filter (fun c => decide (colVariance c = 0)) with _ | ⟨b, bs⟩
    · rw [hbad] at h; cases h
    · rw [hbad] at h
      cases Except.error.inj h
      refine ⟨rfl, ?_⟩
      intro n hn
      rcases List.mem_map.mp hn with ⟨c, hc, rfl⟩
      have : c ∈ t.feats := by
        have := (List.filter_sublist t.feats).subset (hbad ▸ hc)
        exact this
      exact List.mem_map_of_mem _ this
  | variance_threshold cutoff => cases h
  | drop_na_columns cutoff => cases h
  | blocklist names => cases h
  | drop_outliers cutoff => cases h

theorem feature_select_error :
    ∀ (ops : List FSOp) (t : ProfileTable) (e : FSError),
      feature_select ops t = .error e →
      e.operation ∈ ops.map FSOp.opName ∧ e.columns ⊆ featureNames t := by
  intro ops
  induction ops with
  | nil => intro t e h; cases h
  | cons op rest ih =>
    intro t e h
    rw [feature_select] at h
    rcases happ : applyOp op t with e2 | v
    · rw [happ] at h
      cases Except.error.inj h
      rcases applyOp_error happ with ⟨hop, hcols⟩
      exact ⟨by rw [hop]; exact List.mem_map_of_mem _ (List.mem_cons_self op rest), hcols⟩
    · rw [happ] at h
      rcases ih v e h with ⟨hop, hcols⟩
      refine ⟨List.mem_cons_of_mem _ hop, fun n hn => ?_⟩
      have hv := hcols hn
      rcases applyOp_ok_shape happ with ⟨_, hs⟩
      exact (hs.map fun c => c.name).subset hv

/-- C6: when any operation of the ordered list fails, the whole
selection aborts with an error that names the failing operation (an
operation of the list) and the offending columns (columns of the input
table), and the stage output file is left unchanged — no
partially-selected table is written. -/
theorem feature_select_atomic (ops : List FSOp) (t : ProfileTable)
    (outputFile : Option ProfileTable) (e : FSError)
    (h : feature_select ops t = .error e) :
    feature_select_stage ops t outputFile = (.error e, outputFile) ∧
      e.operation ∈ ops.map FSOp.opName ∧ e.columns ⊆ featureNames t := by
  refine ⟨?_, feature_select_error ops t e h⟩
  rw [feature_select_stage, h]

/-- Witness for C6: `correlation_threshold` on a constant column fails,
naming the operation and the column, and leaves the previously written
output file in place. -/
theorem feature_select_atomic_witness :
    feature_select_stage [FSOp.correlation_threshold (9 / 10)] tableBad
        (some tableASelected) =
      (.error { operation := "correlation_threshold", columns := ["Cells_const"] },
        some tableASelected) ∧
      FSError.operation
          { operation := "correlation_threshold", columns := ["Cells_const"] } ∈
        List.map FSOp.opName [FSOp.correlation_threshold (9 / 10)] ∧
      FSError.columns
          { operation := "correlation_threshold", columns := ["Cells_const"] } ⊆
        featureNames tableBad :=
  feature_select_atomic [FSOp.correlation_threshold (9 / 10)] tableBad
    (some tableASelected)
    { operation := "correlation_threshold", columns := ["Cells_const"] }
    (by with_unfolding_all rfl)

/-! ### Claim C7: stages never invent feature columns -/

/-- C7: the feature columns of a stage's output are a subset of those of
its input: normalization only rescales (the name list is preserved) and
feature selection only drops columns. -/
theorem stage_feature_columns_subset :
    (∀ (sqrtFn : ℚ → ℚ) (t : ProfileTable) (samples : SamplePredicate)
        (u : ProfileTable), normalize sqrtFn t samples = .ok u →
        featureNames u ⊆ featureNames t) ∧
      ∀ (ops : List FSOp) (t u : ProfileTable), feature_select ops t = .ok u →
        featureNames u ⊆ featureNames t := by
  constructor
  · intro sqrtFn t samples u h
    unfold normalize at h
    split at h
    · cases h
    · split at h
      · cases h
      · cases Except.ok.inj h
        intro n hn
        simp only [featureNames, List.map_map] at hn
        rcases List.mem_map.mp hn with ⟨col, hcol, rfl⟩
        have hmem := List.mem_map_of_mem (fun c => c.name) hcol
        exact hmem
  · intro ops t u h
    exact ((feature_select_ok_shape ops t u h).2.map fun c => c.name).subset

/-- Witness for C7: both conjuncts applied at concrete tables — the
DMSO-normalized table and the feature-selected table keep feature-name
subsets of their inputs. -/
theorem stage_feature_columns_subset_witness :
    featureNames tableBNormalized ⊆ featureNames tableB ∧
      featureNames tableASelected ⊆ featureNames tableA :=
  ⟨stage_feature_columns_subset.1 id tableB dmsoPredicate tableBNormalized
      (by with_unfolding_all rfl),
    stage_feature_columns_subset.2 opsSrc tableA tableASelected
      (by with_unfolding_all rfl)⟩

/-! ### Grouping lemmas, for the aggregation and consensus stages -/

theorem insertRow_keys {κ α : Type} [DecidableEq κ] (key : α → κ)
    (groups : List (κ × List α)) (r : α) :
    (insertRow key groups r).map Prod.fst =
      if key r ∈ groups.map Prod.fst then groups.map Prod.fst
      else groups.map Prod.fst ++ [key r] := by
  induction groups with
  | nil => simp [insertRow]
  | cons g rest ih =>
    rcases g with ⟨k, rs⟩
    rw [insertRow]
    by_cases hk : key r = k
    · rw [if_pos hk]
      simp [hk]
    · rw [if_neg hk]
      by_cases hin : key r ∈ rest.map Prod.fst <;>
        simp [List.map_cons, ih, hin, hk]

theorem foldl_insertRow_mem_keys {κ α : Type} [DecidableEq κ] (key : α → κ) :
    ∀ (l : List α) (groups : List (κ × List α)) (k : κ),
      (k ∈ (l.foldl (insertRow key) groups).map Prod.fst ↔
        k ∈ groups.map Prod.fst ∨ k ∈ l.map key) := by
  intro l
  induction l with
  | nil => simp
  | cons a l ih =>
    intro groups k
    rw [List.foldl_cons, ih, insertRow_keys]
    by_cases hin : key a ∈ groups.map Prod.fst
    · rw [if_pos hin]
      simp only [List.map_cons, List.mem_cons]
      constructor
      · rintro (h | h)
        · exact Or.inl h
        · exact Or.inr (Or.inr h)
      · rintro (h | h | h)
        · exact Or.inl h
        · rw [h]; exact Or.inl hin
        · exact Or.inr h
    · rw [if_neg hin]
      simp only [List.mem_append, List.mem_singleton, List.map_cons, List.mem_cons]
      tauto

theorem foldl_insertRow_keys_nodup {κ α : Type} [DecidableEq κ] (key : α → κ) :
    ∀ (l : List α) (groups : List (κ × List α)),
      (groups.map Prod.fst).Nodup →
      ((l.foldl (insertRow key) groups).map Prod.fst).Nodup := by
  intro l
  induction l with
  | nil => intro groups h; exact h
  | cons a l ih =>
    intro groups h
    rw [List.foldl_cons]
    apply ih
    rw [insertRow_keys]
    by_cases hin : key a ∈ groups.map Prod.fst
    · rw [if_pos hin]; exact h
    · rw [if_neg hin]
      refine h.append (List.nodup_singleton _) ?_
      intro x hx hsing
      rw [List.mem_singleton.mp hsing] at hx
      exact hin hx

theorem groupByKey_length {κ α : Type} [DecidableEq κ] (key : α → κ) (l : List α) :
    (groupByKey key l).length = (l.map key).dedup.length := by
  have h1 : ((groupByKey key l).map Prod.fst).Nodup :=
    foldl_insertRow_keys_nodup key l [] (by simp)
  have h2 : List.Perm ((groupByKey key l).map Prod.fst) ((l.map key).dedup) := by
    rw [List.perm_ext_iff_of_nodup h1 (List.nodup_dedup _)]
    intro k
    rw [List.mem_dedup]
    have := foldl_insertRow_mem_keys key l [] k
    rw [groupByKey]
    rw [this]
    simp
  calc (groupByKey key l).length
      = ((groupByKey key l).map Prod.fst).length := (List.length_map _ _).symm
    _ = (l.map key).dedup.length := h2.length_eq

/-! ### Claim C4: one aggregated row per stratification key -/

/-- C4: the aggregation stage produces exactly one output row per
distinct (`Metadata_Plate`, `Metadata_Well`) combination present in the
single-cell input. -/
theorem aggregate_profiles_row_count (sc : List SingleCellRow) :
    (aggregate_profiles sc).length = ((sc.map strataKey).dedup).length := by
  rw [aggregate_profiles, List.length_map]
  exact groupByKey_length strataKey sc

/-! ### Claim C8: one consensus row per replicate group -/

/-- C8: the consensus stage produces exactly one output row per
distinct (`Metadata_clone_number`, `Metadata_treatment`) combination
present in its input, whatever the modz combiner computes per group. -/
theorem consensus_row_count (modzCollapse : List Level4Row → List (Option ℚ))
    (profiles : List Level4Row) :
    (consensus modzCollapse profiles).length =
      ((profiles.map replicateKey).dedup).length := by
  rw [consensus, List.length_map]
  exact groupByKey_length replicateKey profiles

/-! ### Claim C5: byte-deterministic stage outputs -/

/-- C5: with the source's `compression_options` (gzip, mtime pinned to
1) the bytes written for a fixed payload do not depend on the wall
clock; and the pinning is what makes it so — with no pinned mtime the
written bytes do depend on the clock. -/
theorem writeStageOutput_deterministic :
    (∀ (deflate : List Nat → List Nat) (payload : List Nat) (clock1 clock2 : Nat),
      writeStageOutput deflate compression_options clock1 payload =
        writeStageOutput deflate compression_options clock2 payload) ∧
      writeStageOutput id { method := "gzip", mtime := none } 0 [] ≠
        writeStageOutput id { method := "gzip", mtime := none } 1 [] := by
  constructor
  · intro deflate payload clock1 clock2
    rfl
  · decide

/-! ### Claim C9: the cell-count report silently drops unmatched wells -/

/-- C9: the cell-count report is an inner merge on
`Metadata_Well = well_position`: any well absent from the platemap's
`well_position` column contributes no row to the written report — it is
dropped without any error, the merge being total. -/
theorem cell_count_merge_drops_unmatched (counts : List CellCountRow)
    (platemap : List PlatemapRow) (w : String)
    (_hcount : w ∈ counts.map fun c => c.Metadata_Well)
    (hmiss : w ∉ platemap.map fun p => p.well_position) :
    (cell_count_merge counts platemap).filter
      (fun row => row.Metadata_Well == w) = [] := by
  rw [List.filter_eq_nil_iff]
  intro row hrow
  rw [cell_count_merge, List.mem_flatten] at hrow
  rcases hrow with ⟨block, hblock, hrowin⟩
  rcases List.mem_map.mp hblock with ⟨c, hc, rfl⟩
  rcases List.mem_map.mp hrowin with ⟨p, hp, rfl⟩
  have hpm : p ∈ platemap := List.mem_of_mem_filter hp
  have hpw : p.well_position = c.Metadata_Well := by
    have := (List.mem_filter.mp hp).2
    exact eq_of_beq this
  intro hbeq
  have hww : c.Metadata_Well = w := eq_of_beq hbeq
  apply hmiss
  rw [← hww, ← hpw]
  exact List.mem_map_of_mem _ hpm

/-- Witness for C9: well `B02` is counted but missing from the
platemap, and no row for it appears in the merged report. -/
theorem cell_count_merge_drops_unmatched_witness :
    (cell_count_merge
        [{ Metadata_Well := "A01", cell_count := 5 },
          { Metadata_Well := "B02", cell_count := 3 }]
        [{ well_position := "A01", contents := ["WT clone"] }]).filter
      (fun row => row.Metadata_Well == "B02") = [] :=
  cell_count_merge_drops_unmatched
    [{ Metadata_Well := "A01", cell_count := 5 },
      { Metadata_Well := "B02", cell_count := 3 }]
    [{ well_position := "A01", contents := ["WT clone"] }] "B02"
    (by decide) (by decide)

end PipelineSpec
